import Mathlib

set_option maxHeartbeats 1000000
set_option maxRecDepth 8000

/-
  Verification development for the openai-claude-proxy transcoding core.

  The Go sources are shallowly embedded:
  * `converter.go` (`ConvertOpenAIToAnthropic`, `addCacheControlToMessage`,
    `ConvertAnthropicToOpenAI`, `convertStopReason`, `getCurrentTimestamp`)
    becomes pure Lean functions over explicit data types;
  * the streaming re-framer of `proxy.go` (`handleStreamResponse`) becomes a
    state-passing fold over a list of parsed upstream events; SSE line
    parsing (lines without the data marker, `[DONE]`, unparseable JSON,
    unknown event types) is out of scope and such lines are represented by
    the `AnthEvent.skipped` constructor, which the loop ignores exactly as
    the Go loop `continue`s over them;
  * calls into `encoding/json` (`json.Unmarshal` of tool-call argument
    strings and `json.Marshal` of tool inputs) are passed in as function
    parameters (`parse`, `serialize`), since the transcoders only branch on
    success/failure of these calls, never on the parsed structure itself.
-/

/- JSON-like value tree for tool-argument payloads. -/
inductive JsonValue where
  | str (s : String)
  | num (n : Int)
  | bool (b : Bool)
  | null
  | arr (l : List JsonValue)
  | obj (l : List (String × JsonValue))

abbrev JsonObj := List (String × JsonValue)

/- Stand-in for `json.Unmarshal([]byte(s), &map[string]interface{})`:
   `none` models a parse error. -/
abbrev ParseFn := String → Option JsonObj

/- One element of an array-valued OpenAI message content
   (`[]interface{}` of maps in the Go code).  `other` covers every item the
   Go loops skip: non-map items, unknown "type" values, a text item whose
   "text" key is not a string, an image item whose "image_url" is not a map. -/
inductive OAIItem where
  | text (t : String)
  | imageURL (url : String)
  | other
deriving DecidableEq

/- The `interface{}` content of an OpenAI message: JSON null, a string, an
   array of items, or any other JSON value (`other`). -/
inductive OAIContentV where
  | null
  | str (s : String)
  | arr (items : List OAIItem)
  | other
deriving DecidableEq

structure OAIFunction where
  name : String := ""
  arguments : String := ""
deriving DecidableEq

structure OAIToolCall where
  id : String := ""
  type : String := ""
  function : OAIFunction := {}
deriving DecidableEq

structure OpenAIMessage where
  role : String := ""
  content : OAIContentV := .null
  toolCalls : List OAIToolCall := []
  toolCallID : String := ""
deriving DecidableEq

structure OpenAIRequest where
  model : String := ""
  messages : List OpenAIMessage := []
  maxTokens : Nat := 0
deriving DecidableEq

structure CacheControl where
  type : String
  ttl : String
deriving DecidableEq

structure ImageSource where
  type : String
  url : String
deriving DecidableEq

/- models.go `AnthropicContent` (the revision with the raw `Content` field
   used for tool results and a pointer-valued `Input`). -/
structure AnthContent where
  type : String
  text : Option String := none
  toolUseID : String := ""
  content : Option OAIContentV := none
  id : String := ""
  name : String := ""
  input : Option JsonObj := none
  cacheControl : Option CacheControl := none
  source : Option ImageSource := none

/- The `interface{}` content of an Anthropic message: nil, a string, or a
   `[]AnthropicContent`. -/
inductive AnthMsgContent where
  | null
  | str (s : String)
  | parts (l : List AnthContent)

structure AnthMessage where
  role : String
  content : AnthMsgContent := .null

structure AnthSystemBlock where
  type : String
  text : String
  cacheControl : Option CacheControl := none

structure AnthropicRequest where
  model : String
  maxTokens : Nat
  messages : List AnthMessage
  system : List AnthSystemBlock

def isStringContent : OAIContentV → Bool
  | .str _ => true
  | _ => false

def getStringContent : OAIContentV → String
  | .str s => s
  | _ => ""

/- strings.Trim(s, "\""): strip every leading and trailing double quote. -/
def trimQuotes (s : String) : String :=
  String.mk (((s.toList.dropWhile (· == '"')).reverse.dropWhile (· == '"')).reverse)

/- converter.go: `if message.Role == "" { message.Role = "user" }`. -/
def defaultRole (m : OpenAIMessage) : OpenAIMessage :=
  if m.role = "" then { m with role := "user" } else m

/- converter.go: `if message.Content == nil { message.Content = "..." }`. -/
def fillNull (m : OpenAIMessage) : OpenAIMessage :=
  match m.content with
  | .null => { m with content := .str "..." }
  | _ => m

/- One iteration of the message-normalization loop of
   ConvertOpenAIToAnthropic (converter.go lines 54-82).  The accumulator
   carries (formatMessages, lastMessage). -/
def formatStep (acc : List OpenAIMessage × OpenAIMessage) (m0 : OpenAIMessage) :
    List OpenAIMessage × OpenAIMessage :=
  let m := defaultRole m0
  if acc.2.role = m.role ∧ acc.2.role ≠ "tool" ∧
      isStringContent acc.2.content = true ∧ isStringContent m.content = true then
    let m2 := fillNull { m with
      content := .str (trimQuotes (getStringContent acc.2.content ++ " " ++ getStringContent m.content)) }
    (acc.1.dropLast ++ [m2], m2)
  else
    let m2 := fillNull m
    (acc.1 ++ [m2], m2)

/- The normalization pass; the initial `lastMessage` has role "tool" and nil
   content, exactly as in the Go code. -/
def formatMessages (msgs : List OpenAIMessage) : List OpenAIMessage :=
  (msgs.foldl formatStep ([], { role := "tool", content := .null })).1

/- converter.go lines 169-200: one array item to an Anthropic content part
   (empty text parts dropped, images unwrapped, everything else skipped). -/
def itemToPart : OAIItem → Option AnthContent
  | .text t => if t = "" then none else some { type := "text", text := some t }
  | .imageURL url => some { type := "image", source := some { type := "url", url := url } }
  | .other => none

/- converter.go lines 204-219: one tool call to a tool_use part; a parse
   failure of the serialized arguments makes the loop `continue`, skipping
   the call. -/
def toolCallToPart (parse : ParseFn) (tc : OAIToolCall) : Option AnthContent :=
  match parse tc.function.arguments with
  | none => none
  | some input => some { type := "tool_use", id := tc.id, name := tc.function.name, input := some input }

/- The content-part list built on the array-content / tool-calls path. -/
def buildContents (parse : ParseFn) (m : OpenAIMessage) : List AnthContent :=
  (match m.content with
   | .arr items => items.filterMap itemToPart
   | _ => []) ++ m.toolCalls.filterMap (toolCallToPart parse)

/- converter.go lines 91-111: system blocks extracted from a system-role
   message (string content gives one block, array content one block per
   text item, anything else none). -/
def systemBlocksOf : OAIContentV → List AnthSystemBlock
  | .str s => [{ type := "text", text := s }]
  | .arr items => items.filterMap fun it =>
      match it with
      | .text t => some { type := "text", text := t }
      | _ => none
  | _ => []

/- converter.go lines 144-149: promote a plain-string message content to a
   single-part list so a tool result can be appended. -/
def promoteContent : AnthMsgContent → AnthMsgContent
  | .str s => .parts [{ type := "text", text := some s }]
  | c => c

/- Split a nonempty list into its initial segment and last element
   (`claudeMessages[:len-1]` and `claudeMessages[len-1]`). -/
def splitLast : List AnthMessage → Option (List AnthMessage × AnthMessage)
  | [] => none
  | [m] => some ([], m)
  | a :: b :: rest =>
      match splitLast (b :: rest) with
      | some (initL, lastM) => some (a :: initL, lastM)
      | none => none

structure ConvState where
  msgs : List AnthMessage := []
  system : List AnthSystemBlock := []
  isFirst : Bool := true

/- The synthesized placeholder user message of the leading-role repair. -/
def placeholderUserMessage : AnthMessage :=
  { role := "user", content := .parts [{ type := "text", text := some "..." }] }

/- converter.go lines 114-126: ensure the first (non-system) message is a
   user message by synthesizing a placeholder ahead of it. -/
def repairFirst (st : ConvState) (messageRole : String) : ConvState :=
  if st.isFirst then
    if messageRole = "user" then { st with isFirst := false }
    else { st with isFirst := false, msgs := st.msgs ++ [placeholderUserMessage] }
  else st

/- The tool_result part built for a tool-role message. -/
def toolResultPart (message : OpenAIMessage) : AnthContent :=
  { type := "tool_result", toolUseID := message.toolCallID, content := some message.content }

/- Content of a message on the array-content / tool-calls path: the part
   list when it is nonempty, nil otherwise (converter.go lines 221-223
   leave `anthMsg.Content` nil when no parts were produced). -/
def complexContent (parse : ParseFn) (message : OpenAIMessage) : AnthMsgContent :=
  if (buildContents parse message).isEmpty then .null else .parts (buildContents parse message)

/- converter.go lines 128-227 after the leading-role repair: tool-result
   handling, plain-string pass-through, and the array-content / tool-calls
   path. -/
def convBody (parse : ParseFn) (st1 : ConvState) (message : OpenAIMessage) : ConvState :=
  if message.role = "tool" ∧ message.toolCallID ≠ "" then
    match splitLast st1.msgs with
    | some (initMsgs, lastMsg) =>
        if lastMsg.role = "user" then
          match promoteContent lastMsg.content with
          | .parts cs =>
              { st1 with msgs := initMsgs ++ [{ lastMsg with content := .parts (cs ++ [toolResultPart message]) }] }
          | _ =>
              { st1 with msgs := st1.msgs ++ [{ role := message.role, content := .null }] }
        else
          { st1 with msgs := st1.msgs ++ [{ role := "user", content := .parts [toolResultPart message] }] }
    | none =>
        { st1 with msgs := st1.msgs ++ [{ role := "user", content := .parts [toolResultPart message] }] }
  else if isStringContent message.content = true ∧ message.toolCalls = [] then
    { st1 with msgs := st1.msgs ++ [{ role := message.role, content := .str (getStringContent message.content) }] }
  else
    { st1 with msgs := st1.msgs ++ [{ role := message.role, content := complexContent parse message }] }

/- One iteration of the main conversion loop of ConvertOpenAIToAnthropic
   (converter.go lines 89-227). -/
def convStep (parse : ParseFn) (st : ConvState) (message : OpenAIMessage) : ConvState :=
  if message.role = "system" then
    { st with system := st.system ++ systemBlocksOf message.content }
  else
    convBody parse (repairFirst st message.role) message

/- converter.go annotateLastPart inside addCacheControlToMessage: set the
   cache marker on the last part. -/
def annotateLastPart : List AnthContent → List AnthContent
  | [] => []
  | [c] => [{ c with cacheControl := some { type := "ephemeral", ttl := "1h" } }]
  | c :: rest => c :: annotateLastPart rest

/- converter.go lines 252-273: addCacheControlToMessage. -/
def addCacheControlToMessage (msg : AnthMessage) : AnthMessage :=
  match msg.content with
  | .parts cs =>
      if cs.isEmpty then msg else { msg with content := .parts (annotateLastPart cs) }
  | .str s =>
      if s = "" then msg
      else
        let cc : AnthContent :=
          { type := "text", text := some s, cacheControl := some { type := "ephemeral", ttl := "1h" } }
        { msg with content := .parts [cc] }
  | .null => msg

/- converter.go lines 230-237: annotate the last system block. -/
def annotateLastBlock : List AnthSystemBlock → List AnthSystemBlock
  | [] => []
  | [b] => [{ b with cacheControl := some { type := "ephemeral", ttl := "1h" } }]
  | b :: rest => b :: annotateLastBlock rest

/- converter.go lines 240-246: annotate the second-to-last message when it
   is an assistant message. -/
def annotateSecondLast : List AnthMessage → List AnthMessage
  | [] => []
  | [m] => [m]
  | [a, b] => [(if a.role = "assistant" then addCacheControlToMessage a else a), b]
  | a :: b :: c :: rest => a :: annotateSecondLast (b :: c :: rest)

/- converter.go ConvertOpenAIToAnthropic (the revision at lines 11-250):
   normalization, conversion, then cache-annotation placement.  The
   max-tokens default of this revision is the flat 4096 fallback. -/
def ConvertOpenAIToAnthropic (parse : ParseFn) (req : OpenAIRequest) : AnthropicRequest :=
  { model := req.model
    maxTokens := if req.maxTokens = 0 then 4096 else req.maxTokens
    system := annotateLastBlock ((formatMessages req.messages).foldl (convStep parse) {}).system
    messages := annotateSecondLast ((formatMessages req.messages).foldl (convStep parse) {}).msgs }

/- A concrete parse function for witnesses: accepts exactly the literal
   empty object and rejects everything else. -/
def miniParse : ParseFn := fun s => if s = "{}" then some [] else none

/- Substring search, strings.Contains style. -/
def listPrefixEq : List Char → List Char → Bool
  | [], _ => true
  | _ :: _, [] => false
  | a :: as, b :: bs => a == b && listPrefixEq as bs

def containsSubAux (pat : List Char) : List Char → Bool
  | [] => listPrefixEq pat []
  | c :: rest => listPrefixEq pat (c :: rest) || containsSubAux pat rest

def containsSub (s pat : String) : Bool := containsSubAux pat.toList s.toList

/-- Modelled from the spec: the model-name max-tokens heuristic of the
max-output-tokens resolution (spec section 4.1 step 2(d), also documented in
the repository README).  The Go function implementing it is absent from the
sources at hand; only its caller (proxy.go, which passes the per-model
override map into the converter) and the README documentation are present. -/
def heuristicMaxTokens (model : String) : Nat :=
  if containsSub model "opus-4" then 16384
  else if containsSub model "opus" || containsSub model "sonnet" then 8192
  else if containsSub model "haiku" then 4096
  else 8192

def lookupTokens : List (String × Nat) → String → Option Nat
  | [], _ => none
  | (k, v) :: rest, m => if k = m then some v else lookupTokens rest m

/-- Modelled from the spec: max-output-tokens resolution in priority order
(spec section 4.1 step 2): explicit nonzero request value, then the
caller-supplied per-model override map, then the numeric environment
default, then the model-name heuristic.  The Go function implementing this
resolution is absent from the sources at hand (only its caller and the
README documentation are present). -/
def resolveMaxTokens (explicit : Nat) (model : String)
    (mapping : List (String × Nat)) (envDefault : Option Nat) : Nat :=
  if explicit ≠ 0 then explicit
  else
    match lookupTokens mapping model with
    | some t => t
    | none =>
        match envDefault with
        | some d => d
        | none => heuristicMaxTokens model

/- converter.go lines 380-393. -/
def convertStopReason (reason : String) : String :=
  if reason = "end_turn" then "stop"
  else if reason = "max_tokens" then "length"
  else if reason = "stop_sequence" then "stop"
  else if reason = "tool_use" then "tool_calls"
  else reason

/- converter.go lines 395-397: the fixed creation timestamp. -/
def getCurrentTimestamp : Int := 1765521600

structure AnthUsage where
  inputTokens : Nat := 0
  cacheCreationInputTokens : Nat := 0
  cacheReadInputTokens : Nat := 0
  outputTokens : Nat := 0
deriving DecidableEq

structure AnthropicResponse where
  id : String := ""
  role : String := ""
  content : List AnthContent := []
  model : String := ""
  stopReason : String := ""
  usage : AnthUsage := {}

structure OAIUsage where
  promptTokens : Nat := 0
  completionTokens : Nat := 0
  totalTokens : Nat := 0
  cacheCreationInputTokens : Nat := 0
  cacheReadInputTokens : Nat := 0
deriving DecidableEq

structure OAIChoice where
  index : Nat
  role : String
  content : String
  toolCalls : List OAIToolCall
  finishReason : String
deriving DecidableEq

structure OpenAIResponse where
  id : String
  object : String
  created : Int
  model : String
  choices : List OAIChoice
  usage : OAIUsage
deriving DecidableEq

/- strings.Join(parts, ""). -/
def joinAll : List String → String
  | [] => ""
  | s :: rest => s ++ joinAll rest

/- converter.go lines 309-378: ConvertAnthropicToOpenAI.  `serialize`
   stands for `json.Marshal` of the (possibly nil) input map. -/
def ConvertAnthropicToOpenAI (serialize : Option JsonObj → String)
    (r : AnthropicResponse) : OpenAIResponse :=
  let textParts := r.content.filterMap fun c => if c.type = "text" then c.text else none
  let toolCalls := r.content.filterMap fun c =>
    if c.type = "tool_use" then
      some ({ id := c.id, type := "function",
              function := { name := c.name, arguments := serialize c.input } } : OAIToolCall)
    else none
  { id := r.id
    object := "chat.completion"
    created := getCurrentTimestamp
    model := r.model
    choices := [{ index := 0, role := r.role, content := joinAll textParts,
                  toolCalls := toolCalls,
                  finishReason := if toolCalls.isEmpty then convertStopReason r.stopReason else "tool_calls" }]
    usage := { promptTokens := r.usage.inputTokens
               completionTokens := r.usage.outputTokens
               totalTokens := r.usage.inputTokens + r.usage.outputTokens
               cacheCreationInputTokens := r.usage.cacheCreationInputTokens
               cacheReadInputTokens := r.usage.cacheReadInputTokens } }

/- Upstream stream events as the re-framer sees them after JSON decoding.
   `skipped` stands for every line the Go loop `continue`s over. -/
inductive BlockKind where
  | text
  | toolUse (id name : String)
  | other
deriving DecidableEq

inductive DeltaKind where
  | textDelta (text : String)
  | inputJsonDelta (s : String)
  | other
deriving DecidableEq

inductive AnthEvent where
  | messageStart (id : String) (usage : Option AnthUsage)
  | contentBlockStart (block : BlockKind)
  | contentBlockDelta (delta : DeltaKind)
  | contentBlockStop
  | messageDelta (stopReason : Option String) (usage : Option AnthUsage)
  | skipped
deriving DecidableEq

structure StreamState where
  messageID : String := ""
  usage : Option AnthUsage := none
  toolIndex : Nat := 0
deriving DecidableEq

def initStreamState : StreamState := {}

structure UsageBlock where
  promptTokens : Nat
  completionTokens : Nat
  totalTokens : Nat
  cachedTokens : Nat
deriving DecidableEq

def mkUsageBlock (u : AnthUsage) : UsageBlock :=
  { promptTokens := u.inputTokens
    completionTokens := u.outputTokens
    totalTokens := u.inputTokens + u.outputTokens
    cachedTokens := u.cacheReadInputTokens }

structure ToolCallDelta where
  index : Nat
  id : Option String := none
  type : Option String := none
  name : Option String := none
  arguments : String := ""
deriving DecidableEq

structure Chunk where
  id : String
  object : String
  created : Int
  model : String
  role : Option String := none
  content : Option String := none
  toolCalls : List ToolCallDelta := []
  finishReason : Option String := none
  usage : Option UsageBlock := none
deriving DecidableEq

inductive SSEFrame where
  | data (c : Chunk)
  | done
deriving DecidableEq

def baseChunk (messageID model : String) : Chunk :=
  { id := messageID, object := "chat.completion.chunk",
    created := getCurrentTimestamp, model := model }

def toolStartChunk (messageID model : String) (idx : Nat) (toolID toolName : String) : Chunk :=
  { baseChunk messageID model with
    toolCalls := [{ index := idx, id := some toolID, type := some "function",
                    name := some toolName, arguments := "" }] }

/- One iteration of the streaming loop of proxy.go handleStreamResponse
   (the revision at lines 709-938): note that the message_delta case reads
   only the stop reason; the usage counters carried by that event are never
   read, so the final usage block reports the usage captured at
   message_start. -/
def streamStep (model : String) (st : StreamState) (e : AnthEvent) :
    StreamState × List Chunk :=
  match e with
  | .messageStart mid u =>
      let newUsage := match u with | some x => some x | none => st.usage
      ({ st with messageID := mid, usage := newUsage },
       [{ baseChunk mid model with role := some "assistant", content := some "" }])
  | .contentBlockStart b =>
      match b with
      | .toolUse tid tname => (st, [toolStartChunk st.messageID model st.toolIndex tid tname])
      | _ => (st, [])
  | .contentBlockDelta d =>
      match d with
      | .textDelta t => (st, [{ baseChunk st.messageID model with content := some t }])
      | .inputJsonDelta s =>
          (st, [{ baseChunk st.messageID model with toolCalls := [{ index := st.toolIndex, arguments := s }] }])
      | .other => (st, [])
  | .contentBlockStop => ({ st with toolIndex := st.toolIndex + 1 }, [])
  | .messageDelta sr _ =>
      match sr with
      | some reason =>
          (st, [{ baseChunk st.messageID model with
                  finishReason := some (convertStopReason reason),
                  usage := st.usage.map mkUsageBlock }])
      | none => (st, [])
  | .skipped => (st, [])

def streamRun (model : String) (st : StreamState) : List AnthEvent → StreamState × List Chunk
  | [] => (st, [])
  | e :: rest =>
      ((streamRun model (streamStep model st e).1 rest).1,
       (streamStep model st e).2 ++ (streamRun model (streamStep model st e).1 rest).2)

/- The full streaming re-framer: emitted data frames followed by the
   `data: [DONE]` terminator. -/
def handleStreamResponse (model : String) (evs : List AnthEvent) : List SSEFrame :=
  ((streamRun model initStreamState evs).2.map SSEFrame.data) ++ [SSEFrame.done]

def isStopEvent : AnthEvent → Bool
  | .contentBlockStop => true
  | _ => false

def countStops (evs : List AnthEvent) : Nat := (evs.filter isStopEvent).length

def frameUsage : SSEFrame → Option UsageBlock
  | .data c => c.usage
  | .done => none

def toolIndicesOf (frames : List SSEFrame) : List Nat :=
  frames.foldr (fun f acc =>
    match f with
    | .data c => c.toolCalls.map (fun t => t.index) ++ acc
    | .done => acc) []

/- Number of cache annotations carried by a message's content-part list
   (a plain-string or nil content carries none). -/
def msgCC (m : AnthMessage) : Nat :=
  match m.content with
  | .parts cs => (cs.filter fun c => c.cacheControl.isSome).length
  | _ => 0

/- Number of tool_use parts carried by a message. -/
def msgToolUseCount (m : AnthMessage) : Nat :=
  match m.content with
  | .parts cs => (cs.filter fun c => c.type == "tool_use").length
  | _ => 0

/- ===== Helper lemmas ===== -/

theorem splitLast_eq :
    ∀ (l : List AnthMessage) (initMsgs : List AnthMessage) (lastMsg : AnthMessage),
      splitLast l = some (initMsgs, lastMsg) → l = initMsgs ++ [lastMsg]
  | [], i, m, h => by simp [splitLast] at h
  | [x], i, m, h => by
      simp [splitLast] at h
      rcases h with ⟨h1, h2⟩
      subst h1
      subst h2
      rfl
  | a :: b :: rest, i, m, h => by
      rw [splitLast] at h
      cases hs : splitLast (b :: rest) with
      | none => rw [hs] at h; simp at h
      | some p =>
          rw [hs] at h
          simp at h
          rcases h with ⟨h1, h2⟩
          have := splitLast_eq (b :: rest) p.1 p.2 (by rw [hs])
          rw [← h1, this, h2]
          rfl

theorem joinAll_cons (s : String) (l : List String) : joinAll (s :: l) = s ++ joinAll l := rfl

theorem empty_append_string (s : String) : "" ++ s = s := rfl

/- ===== Claim C3 ===== -/

/-- Claim C3: the outbound max-output-tokens is resolved in priority order:
the explicit inbound value if nonzero; otherwise the caller-supplied
per-model override map entry; otherwise the numeric environment default;
otherwise the model-name heuristic (contains "opus-4" gives 16384, "opus"
or "sonnet" gives 8192, "haiku" gives 4096, anything else 8192).  Stated
over the spec-modelled resolution function, together with concrete
evaluations of every priority tier and every heuristic case. -/
theorem C3_max_tokens_resolution :
    (∀ (explicit : Nat) (model : String) (mapping : List (String × Nat)) (envDefault : Option Nat),
      resolveMaxTokens explicit model mapping envDefault =
        if explicit ≠ 0 then explicit
        else Option.getD (lookupTokens mapping model) (Option.getD envDefault (heuristicMaxTokens model)))
    ∧ (∀ m : String, heuristicMaxTokens m =
        if containsSub m "opus-4" then 16384
        else if containsSub m "opus" || containsSub m "sonnet" then 8192
        else if containsSub m "haiku" then 4096
        else 8192)
    ∧ resolveMaxTokens 0 "claude-opus-4-5" [] none = 16384
    ∧ resolveMaxTokens 0 "claude-3-opus" [] none = 8192
    ∧ resolveMaxTokens 0 "claude-3-5-sonnet" [] none = 8192
    ∧ resolveMaxTokens 0 "claude-3-haiku" [] none = 4096
    ∧ resolveMaxTokens 0 "gpt-4o" [] none = 8192
    ∧ resolveMaxTokens 512 "claude-3-haiku" [("claude-3-haiku", 7777)] (some 9999) = 512
    ∧ resolveMaxTokens 0 "claude-3-haiku" [("claude-3-haiku", 7777)] (some 9999) = 7777
    ∧ resolveMaxTokens 0 "claude-3-haiku" [] (some 9999) = 9999 := by
  refine ⟨?_, fun m => rfl, by decide, by decide, by decide, by decide, by decide,
    by decide, by decide, by decide⟩
  intro explicit model mapping envDefault
  unfold resolveMaxTokens
  by_cases h : explicit ≠ 0
  · rw [if_pos h, if_pos h]
  · rw [if_neg h, if_neg h]
    cases lookupTokens mapping model <;> cases envDefault <;> rfl

/- ===== Claim C6 ===== -/

/- The in-order concatenation of all text-typed content blocks (blocks of
   other types, and text blocks with no text payload, contribute nothing). -/
def concatTexts (blocks : List AnthContent) : String :=
  joinAll (blocks.map fun c => if c.type = "text" then c.text.getD "" else "")

theorem textParts_concat (l : List AnthContent) :
    joinAll (l.filterMap fun c => if c.type = "text" then c.text else none)
      = concatTexts l := by
  induction l with
  | nil => rfl
  | cons c rest ih =>
      unfold concatTexts at ih ⊢
      simp only [List.filterMap_cons, List.map_cons]
      by_cases h : c.type = "text"
      · rw [if_pos h, if_pos h]
        cases ht : c.text with
        | none =>
            show joinAll (rest.filterMap fun c => if c.type = "text" then c.text else none)
              = joinAll ("" :: rest.map fun c => if c.type = "text" then c.text.getD "" else "")
            rw [joinAll_cons, empty_append_string, ih]
        | some s =>
            show joinAll (s :: rest.filterMap fun c => if c.type = "text" then c.text else none)
              = joinAll (s :: rest.map fun c => if c.type = "text" then c.text.getD "" else "")
            rw [joinAll_cons, joinAll_cons, ih]
      · rw [if_neg h, if_neg h]
        show joinAll (rest.filterMap fun c => if c.type = "text" then c.text else none)
          = joinAll ("" :: rest.map fun c => if c.type = "text" then c.text.getD "" else "")
        rw [joinAll_cons, empty_append_string, ih]

theorem toolUse_filterMap_empty (serialize : Option JsonObj → String) (l : List AnthContent) :
    (l.filterMap fun c =>
      if c.type = "tool_use" then
        some ({ id := c.id, type := "function",
                function := { name := c.name, arguments := serialize c.input } } : OAIToolCall)
      else none).isEmpty = !(l.any fun c => c.type == "tool_use") := by
  induction l with
  | nil => rfl
  | cons c rest ih =>
      simp only [List.filterMap_cons, List.any_cons]
      by_cases h : c.type = "tool_use"
      · simp [h]
      · simp [h, ih]

/-- Claim C6: the Response Transcoder sets the finish-reason to
"tool_calls" whenever at least one tool-invocation-request block is
present, regardless of the upstream stop-reason; with no tool invocation
the finish-reason is the upstream stop-reason through the fixed table
(end_turn to stop, max_tokens to length, stop_sequence to stop), and the
response content is the in-order concatenation of the text-typed blocks. -/
theorem C6_finish_reason_and_content (serialize : Option JsonObj → String) (r : AnthropicResponse) :
    ((ConvertAnthropicToOpenAI serialize r).choices.map fun ch => ch.finishReason)
      = [if r.content.any (fun c => c.type == "tool_use") then "tool_calls"
         else convertStopReason r.stopReason]
    ∧ ((ConvertAnthropicToOpenAI serialize r).choices.map fun ch => ch.content)
        = [concatTexts r.content]
    ∧ convertStopReason "end_turn" = "stop"
    ∧ convertStopReason "max_tokens" = "length"
    ∧ convertStopReason "stop_sequence" = "stop" := by
  refine ⟨?_, ?_, rfl, rfl, rfl⟩
  · have he := toolUse_filterMap_empty serialize r.content
    cases hAny : r.content.any fun c => c.type == "tool_use" with
    | true => rw [hAny] at he; simp [ConvertAnthropicToOpenAI, he, hAny]
    | false => rw [hAny] at he; simp [ConvertAnthropicToOpenAI, he, hAny]
  · simp [ConvertAnthropicToOpenAI, textParts_concat]

/- ===== Claim C10 ===== -/

theorem streamStep_created (model : String) (st : StreamState) (e : AnthEvent) :
    ∀ c ∈ (streamStep model st e).2, c.created = 1765521600 := by
  intro c hc
  cases e with
  | messageStart mid u =>
      simp only [streamStep, List.mem_singleton] at hc
      rw [hc]; rfl
  | contentBlockStart b =>
      cases b with
      | text => simp [streamStep] at hc
      | toolUse tid tname =>
          simp only [streamStep, List.mem_singleton] at hc
          rw [hc]; rfl
      | other => simp [streamStep] at hc
  | contentBlockDelta d =>
      cases d with
      | textDelta t =>
          simp only [streamStep, List.mem_singleton] at hc
          rw [hc]; rfl
      | inputJsonDelta s =>
          simp only [streamStep, List.mem_singleton] at hc
          rw [hc]; rfl
      | other => simp [streamStep] at hc
  | contentBlockStop => simp [streamStep] at hc
  | messageDelta sr u =>
      cases sr with
      | none => simp [streamStep] at hc
      | some reason =>
          simp only [streamStep, List.mem_singleton] at hc
          rw [hc]; rfl
  | skipped => simp [streamStep] at hc

theorem streamRun_created (model : String) :
    ∀ (evs : List AnthEvent) (st : StreamState), ∀ c ∈ (streamRun model st evs).2, c.created = 1765521600
  | [], st => by intro c hc; simp [streamRun] at hc
  | e :: rest, st => by
      intro c hc
      rw [streamRun] at hc
      rcases List.mem_append.1 hc with h | h
      · exact streamStep_created model st e c h
      · exact streamRun_created model rest _ c h

/-- Claim C10: the creation timestamp attached to every transcoded response
and to every emitted streaming chunk is the fixed constant 1765521600;
getCurrentTimestamp returns 1765521600 on every call, so all emitted
"created" fields equal that constant. -/
theorem C10_fixed_timestamp :
    getCurrentTimestamp = 1765521600
    ∧ (∀ (serialize : Option JsonObj → String) (r : AnthropicResponse),
        (ConvertAnthropicToOpenAI serialize r).created = 1765521600)
    ∧ (∀ (model : String) (evs : List AnthEvent),
        ((handleStreamResponse model evs).all fun f =>
          match f with
          | .data c => c.created == 1765521600
          | .done => true) = true) := by
  refine ⟨rfl, fun serialize r => rfl, fun model evs => ?_⟩
  rw [List.all_eq_true]
  intro f hf
  unfold handleStreamResponse at hf
  rcases List.mem_append.1 hf with h | h
  · rcases List.mem_map.1 h with ⟨c, hc, rfl⟩
    have := streamRun_created model evs initStreamState c hc
    simp [this]
  · simp only [List.mem_singleton] at h
    rw [h]

/- ===== Claim C1 ===== -/

/- The concrete upstream event stream of the spec's streaming scenario. -/
def evC1 : List AnthEvent :=
  [.messageStart "msg_1" (some { inputTokens := 10 }),
   .contentBlockDelta (.textDelta "Hi"),
   .messageDelta (some "end_turn") (some { outputTokens := 3 })]

/-- Modelled from the spec: the chunk sequence that claim C1 asserts for the
scenario stream, with the final usage block carrying prompt_tokens=10,
completion_tokens=3, total_tokens=13 (all other fields as the code emits
them, so that any difference from the code's actual output isolates the
usage accounting). -/
def claimC1Frames (model : String) : List SSEFrame :=
  [.data { baseChunk "msg_1" model with role := some "assistant", content := some "" },
   .data { baseChunk "msg_1" model with content := some "Hi" },
   .data { baseChunk "msg_1" model with finishReason := some "stop", usage := some { promptTokens := 10, completionTokens := 3, totalTokens := 13, cachedTokens := 0 } },
   .done]

/-- Claim C1 counterexample: on the scenario stream the re-framer's final
chunk carries completion_tokens=0 and total_tokens=10, not the claimed
completion_tokens=3 and total_tokens=13, because the usage counters on the
message_delta event are never read; the emitted frame sequence therefore
differs from the claimed one. -/
theorem C1_counterexample :
    handleStreamResponse "claude-3" evC1 ≠ claimC1Frames "claude-3"
    ∧ frameUsage ((handleStreamResponse "claude-3" evC1).getD 2 .done)
        = some { promptTokens := 10, completionTokens := 0, totalTokens := 10, cachedTokens := 0 }
    ∧ (0 : Nat) ≠ 3 := by
  refine ⟨by decide, rfl, by decide⟩

/-- Claim C1 (amended): for the scenario stream [message-start(id="msg_1",
usage={input:10}), content-block-delta(text="Hi"),
message-delta(stop_reason="end_turn", usage+={output:3})] the re-framer
emits exactly one role-announcement chunk, one content-delta chunk with
text "Hi", one final chunk with finish_reason "stop" carrying usage
prompt_tokens=10, completion_tokens=0, total_tokens=10 (the usage attached
to message-delta is ignored; only the usage captured at message-start is
reported), followed by the terminator frame. -/
theorem C1_stream_scenario :
    handleStreamResponse "claude-3" evC1 =
      [.data { baseChunk "msg_1" "claude-3" with role := some "assistant", content := some "" },
       .data { baseChunk "msg_1" "claude-3" with content := some "Hi" },
       .data { baseChunk "msg_1" "claude-3" with finishReason := some "stop", usage := some { promptTokens := 10, completionTokens := 0, totalTokens := 10, cachedTokens := 0 } },
       .done] := by
  rfl

/- ===== Claim C9 ===== -/

/- The concrete stream refuting the claim: a text block completes before
   the first tool block, so the first tool fragment carries index 1. -/
def evC9 : List AnthEvent :=
  [.contentBlockStart .text, .contentBlockStop,
   .contentBlockStart (.toolUse "toolu_1" "get_weather")]

/-- Claim C9 counterexample: in a stream whose first content block is a
text block, the first tool-invocation block's fragment carries positional
index 1, not 0, because the index is advanced at every content-block-stop
(text blocks included), so it does not enumerate tool blocks. -/
theorem C9_counterexample :
    toolIndicesOf (handleStreamResponse "m" evC9) = [1] ∧ (1 : Nat) ≠ 0 :=
  ⟨rfl, by decide⟩

theorem streamRun_append (model : String) (a b : List AnthEvent) :
    ∀ st : StreamState,
      streamRun model st (a ++ b)
        = ((streamRun model (streamRun model st a).1 b).1,
           (streamRun model st a).2 ++ (streamRun model (streamRun model st a).1 b).2) := by
  induction a with
  | nil => intro st; simp [streamRun]
  | cons e rest ih =>
      intro st
      simp only [List.cons_append, streamRun, List.append_eq, ih, List.append_assoc]

theorem streamStep_toolIndex (model : String) (st : StreamState) (e : AnthEvent) :
    (streamStep model st e).1.toolIndex = st.toolIndex + (if isStopEvent e then 1 else 0) := by
  cases e with
  | messageStart mid u => simp [streamStep, isStopEvent]
  | contentBlockStart b => cases b <;> simp [streamStep, isStopEvent]
  | contentBlockDelta d => cases d <;> simp [streamStep, isStopEvent]
  | contentBlockStop => simp [streamStep, isStopEvent]
  | messageDelta sr u => cases sr <;> simp [streamStep, isStopEvent]
  | skipped => simp [streamStep, isStopEvent]

theorem countStops_cons (e : AnthEvent) (rest : List AnthEvent) :
    countStops (e :: rest) = (if isStopEvent e then 1 else 0) + countStops rest := by
  unfold countStops
  rw [List.filter_cons]
  cases h : isStopEvent e
  · simp [h]
  · simp [h]
    omega

theorem streamRun_toolIndex (model : String) :
    ∀ (evs : List AnthEvent) (st : StreamState),
      (streamRun model st evs).1.toolIndex = st.toolIndex + countStops evs
  | [], st => by simp [streamRun, countStops]
  | e :: rest, st => by
      rw [streamRun]
      show (streamRun model (streamStep model st e).1 rest).1.toolIndex = _
      rw [streamRun_toolIndex model rest, streamStep_toolIndex, countStops_cons]
      omega

/-- Claim C9 (amended): a tool-call fragment carries the current value of a
positional counter equal to the number of content-block-stop events seen
earlier in the stream (a zero-based position over all content blocks, not
over tool-invocation blocks only); the counter is advanced exactly at
content-block-stop, so successive tool blocks get distinct indices, and the
first tool block carries index 0 only when no content block completed
before it. -/
theorem C9_tool_index (model : String) :
    (∀ evs : List AnthEvent,
      (streamRun model initStreamState evs).1.toolIndex = countStops evs)
    ∧ (∀ (pre : List AnthEvent) (tid tname : String),
        (streamRun model initStreamState (pre ++ [.contentBlockStart (.toolUse tid tname)])).2
          = (streamRun model initStreamState pre).2
            ++ [toolStartChunk (streamRun model initStreamState pre).1.messageID model
                  (countStops pre) tid tname]) := by
  constructor
  · intro evs
    rw [streamRun_toolIndex]
    show 0 + countStops evs = countStops evs
    omega
  · intro pre tid tname
    rw [streamRun_append]
    have hidx : (streamRun model initStreamState pre).1.toolIndex = countStops pre := by
      rw [streamRun_toolIndex]
      show 0 + countStops pre = countStops pre
      omega
    simp [streamRun, streamStep, hidx]

/- ===== Claim C2 ===== -/

theorem itemToPart_not_toolUse (it : OAIItem) (c : AnthContent)
    (h : itemToPart it = some c) : ¬(c.type = "tool_use") := by
  cases it with
  | text t =>
      by_cases ht : t = ""
      · simp [itemToPart, ht] at h
      · simp [itemToPart, ht] at h
        rw [← h]
        show ¬("text" : String) = "tool_use"
        decide
  | imageURL u =>
      simp [itemToPart] at h
      rw [← h]
      show ¬("image" : String) = "tool_use"
      decide
  | other => simp [itemToPart] at h

theorem toolParts_filter_length (parse : ParseFn) :
    ∀ tcs : List OAIToolCall,
      ((tcs.filterMap (toolCallToPart parse)).filter fun c => c.type == "tool_use").length
        = (tcs.filter fun tc => (parse tc.function.arguments).isSome).length
  | [] => rfl
  | tc :: rest => by
      have ih := toolParts_filter_length parse rest
      rw [List.filterMap_cons]
      cases hp : parse tc.function.arguments with
      | none =>
          rw [show toolCallToPart parse tc = none from by unfold toolCallToPart; rw [hp]]
          rw [List.filter_cons]
          simp [hp, ih]
      | some obj =>
          rw [show toolCallToPart parse tc
                = some { type := "tool_use", id := tc.id, name := tc.function.name, input := some obj }
              from by unfold toolCallToPart; rw [hp]]
          rw [List.filter_cons]
          simp [hp, ih]

/-- Claim C2 (amended): the conversion always succeeds (the source function
returns a nil error on every input, and the embedding is total), but an
assistant tool call whose serialized argument payload fails to parse is
skipped rather than converted with an empty argument object: the number of
tool-invocation-request parts produced for a message equals the number of
its tool calls whose argument payloads parse successfully. -/
theorem C2_malformed_tool_args_skipped (parse : ParseFn) (m : OpenAIMessage) :
    ((buildContents parse m).filter fun c => c.type == "tool_use").length
      = (m.toolCalls.filter fun tc => (parse tc.function.arguments).isSome).length := by
  unfold buildContents
  rw [List.filter_append, List.length_append]
  have h1 : ((match m.content with
      | OAIContentV.arr items => items.filterMap itemToPart
      | _ => ([] : List AnthContent)).filter fun (c : AnthContent) => c.type == "tool_use") = [] := by
    rw [List.filter_eq_nil_iff]
    intro c hc
    cases hcon : m.content with
    | arr items =>
        rw [hcon] at hc
        rcases List.mem_filterMap.1 hc with ⟨it, _, hit⟩
        have := itemToPart_not_toolUse it c hit
        simpa using this
    | null => rw [hcon] at hc; simp at hc
    | str s => rw [hcon] at hc; simp at hc
    | other => rw [hcon] at hc; simp at hc
  rw [h1]
  simp only [List.length_nil, Nat.zero_add]
  exact toolParts_filter_length parse m.toolCalls

/- The concrete request refuting the claim: one assistant tool call whose
   arguments do not parse. -/
def reqC2 : OpenAIRequest :=
  { messages :=
      [{ role := "user", content := .str "q" },
       { role := "assistant", content := .null,
         toolCalls := [{ id := "call_1", type := "function",
                         function := { name := "get_weather", arguments := "oops" } }] }] }

/-- Claim C2 counterexample: for a request whose assistant message carries
one tool call with unparseable arguments, the outbound assistant message
contains no tool-invocation-request part at all (zero tool_use parts),
rather than one such part with an empty argument object; the conversion
does succeed without aborting. -/
theorem C2_counterexample :
    miniParse "oops" = none
    ∧ (ConvertOpenAIToAnthropic miniParse reqC2).messages.map (fun m => (m.role, msgToolUseCount m))
        = [("user", 0), ("assistant", 0)]
    ∧ (0 : Nat) ≠ 1 :=
  ⟨rfl, rfl, by decide⟩

/- ===== Claim C8 ===== -/

/-- Claim C8 (amended): two consecutive inbound messages with the same
non-"tool", nonempty role and plain-string contents are merged by the
normalization pass into one message whose content is the two strings joined
by a single space with every leading and trailing double-quote character
then stripped from the combined string (strings.Trim(combined, "\"")); in
particular "A" and "B" become "A B". -/
theorem C8_merge_consecutive (role a b : String) (h1 : role ≠ "tool") (h2 : role ≠ "") :
    formatMessages [{ role := role, content := .str a }, { role := role, content := .str b }]
      = [{ role := role, content := .str (trimQuotes (a ++ " " ++ b)) }] := by
  unfold formatMessages
  simp only [List.foldl]
  have e1 : formatStep ([], { role := "tool", content := .null })
      { role := role, content := .str a }
      = ([{ role := role, content := .str a }], { role := role, content := .str a }) := by
    unfold formatStep
    rw [if_neg]
    · unfold defaultRole
      rw [if_neg h2]
      rfl
    · unfold defaultRole
      rw [if_neg h2]
      intro hcon
      exact absurd rfl hcon.2.1
  rw [e1]
  unfold formatStep
  rw [if_pos]
  · unfold defaultRole
    rw [if_neg h2]
    rfl
  · unfold defaultRole
    rw [if_neg h2]
    exact ⟨rfl, h1, rfl, rfl⟩

/-- Claim C8 witness: two consecutive user messages with contents "A" and
"B" merge into one user message with content "A B". -/
theorem C8_merge_witness :
    formatMessages [{ role := "user", content := .str "A" }, { role := "user", content := .str "B" }]
      = [{ role := "user", content := .str "A B" }] := by
  rw [C8_merge_consecutive "user" "A" "B" (by decide) (by decide)]
  decide

/-- Claim C8 counterexample: with contents "\"A\"" (a string whose first
and last characters are literal double quotes) and "B", the merged content
is "A\" B" rather than the claimed plain join "\"A\" B": the pass trims
double quotes from both ends of the joined string. -/
theorem C8_counterexample :
    formatMessages [{ role := "user", content := .str "\"A\"" }, { role := "user", content := .str "B" }]
      = [{ role := "user", content := .str "A\" B" }]
    ∧ "A\" B" ≠ "\"A\" B" :=
  ⟨by decide, by decide⟩

/- ===== Claim C5 ===== -/

/-- Claim C5 (amended): in the per-message conversion, a message that takes
the array-content / tool-invocation path and produces zero content parts is
not dropped: it is still appended to the outbound message list as an entry
with its role and a nil content (converter.go only skips assigning
`anthMsg.Content`, then appends `anthMsg` unconditionally). -/
theorem C5_empty_parts_message_kept (parse : ParseFn) (st : ConvState) (m : OpenAIMessage)
    (hs : m.role ≠ "system")
    (ht : ¬(m.role = "tool" ∧ m.toolCallID ≠ ""))
    (hp : ¬(isStringContent m.content = true ∧ m.toolCalls = []))
    (he : buildContents parse m = []) :
    (convStep parse st m).msgs
      = (repairFirst st m.role).msgs ++ [{ role := m.role, content := AnthMsgContent.null }] := by
  unfold convStep
  rw [if_neg hs]
  unfold convBody
  rw [if_neg ht, if_neg hp]
  unfold complexContent
  rw [he]
  rfl

/- The concrete message refuting the claim: array content whose only item
   is an empty text part. -/
def mC5 : OpenAIMessage := { role := "user", content := .arr [.text ""] }

/-- Claim C5 witness: a user message whose array content produces zero
parts is emitted as a user message with nil content (applied to the empty
starting state). -/
theorem C5_empty_parts_witness :
    (convStep miniParse {} mC5).msgs = [{ role := "user", content := AnthMsgContent.null }] := by
  have h := C5_empty_parts_message_kept miniParse {} mC5 (by decide) (by decide) (by decide) rfl
  rw [h]
  rfl

/-- Claim C5 counterexample: a request whose only message is a user message
with array content [text ""] yields an outbound message list of length 1
(the message appears, with nil content), not the empty list the claimed
"dropped entirely" behavior would produce. -/
theorem C5_counterexample :
    (ConvertOpenAIToAnthropic miniParse { messages := [mC5] }).messages
      = [{ role := "user", content := AnthMsgContent.null }]
    ∧ (ConvertOpenAIToAnthropic miniParse { messages := [mC5] }).messages.length ≠ 0 := by
  constructor
  · rfl
  · decide

/- ===== Claim C4 ===== -/

def RoleOK (r : String) : Prop := r = "system" ∨ r = "user" ∨ r = "assistant"

theorem fillNull_role (m : OpenAIMessage) : (fillNull m).role = m.role := by
  unfold fillNull
  cases h : m.content <;> rfl

theorem defaultRole_ok (m : OpenAIMessage) (hm : m.role = "" ∨ RoleOK m.role) :
    RoleOK (defaultRole m).role := by
  unfold defaultRole
  rcases hm with h | h
  · rw [if_pos h]
    exact Or.inr (Or.inl rfl)
  · have hne : ¬(m.role = "") := by
      rcases h with h | h | h <;> rw [h] <;> decide
    rw [if_neg hne]
    exact h

theorem formatStep_roles (acc : List OpenAIMessage × OpenAIMessage) (m : OpenAIMessage)
    (hacc : ∀ x ∈ acc.1, RoleOK x.role) (hm : m.role = "" ∨ RoleOK m.role) :
    ∀ x ∈ (formatStep acc m).1, RoleOK x.role := by
  intro x hx
  have hdr := defaultRole_ok m hm
  unfold formatStep at hx
  by_cases hc : acc.2.role = (defaultRole m).role ∧ acc.2.role ≠ "tool" ∧
      isStringContent acc.2.content = true ∧ isStringContent (defaultRole m).content = true
  · rw [if_pos hc] at hx
    rcases List.mem_append.1 hx with h | h
    · exact hacc x ((List.dropLast_sublist _).subset h)
    · simp only [List.mem_singleton] at h
      subst h
      rw [fillNull_role]
      exact hdr
  · rw [if_neg hc] at hx
    rcases List.mem_append.1 hx with h | h
    · exact hacc x h
    · simp only [List.mem_singleton] at h
      subst h
      rw [fillNull_role]
      exact hdr

theorem formatFold_roles :
    ∀ (msgs : List OpenAIMessage) (acc : List OpenAIMessage × OpenAIMessage),
      (∀ x ∈ acc.1, RoleOK x.role) →
      (∀ m ∈ msgs, m.role = "" ∨ RoleOK m.role) →
      ∀ x ∈ (msgs.foldl formatStep acc).1, RoleOK x.role
  | [], acc, hacc, _ => by simpa using hacc
  | m :: rest, acc, hacc, hmsgs => by
      rw [List.foldl_cons]
      exact formatFold_roles rest (formatStep acc m)
        (formatStep_roles acc m hacc (hmsgs m (List.mem_cons_self m rest)))
        (fun x hx => hmsgs x (List.mem_cons_of_mem _ hx))

theorem formatMessages_roles (msgs : List OpenAIMessage)
    (h : ∀ m ∈ msgs, m.role = "" ∨ RoleOK m.role) :
    ∀ x ∈ formatMessages msgs, RoleOK x.role := by
  unfold formatMessages
  exact formatFold_roles msgs _ (by intro x hx; simp at hx) h

theorem repairFirst_msgs_pred (P : AnthMessage → Prop) (st : ConvState) (r : String)
    (hst : ∀ x ∈ st.msgs, P x) (hph : P placeholderUserMessage) :
    ∀ x ∈ (repairFirst st r).msgs, P x := by
  intro x hx
  unfold repairFirst at hx
  by_cases hf : st.isFirst = true
  · rw [if_pos hf] at hx
    by_cases hu : r = "user"
    · rw [if_pos hu] at hx
      exact hst x hx
    · rw [if_neg hu] at hx
      rcases List.mem_append.1 hx with h | h
      · exact hst x h
      · simp only [List.mem_singleton] at h
        subst h
        exact hph
  · rw [if_neg hf] at hx
    exact hst x hx

theorem convBody_roles (parse : ParseFn) (st1 : ConvState) (m : OpenAIMessage)
    (hst : ∀ x ∈ st1.msgs, x.role = "user" ∨ x.role = "assistant")
    (hm : m.role = "user" ∨ m.role = "assistant") :
    ∀ x ∈ (convBody parse st1 m).msgs, x.role = "user" ∨ x.role = "assistant" := by
  intro x hx
  have htool : ¬(m.role = "tool" ∧ m.toolCallID ≠ "") := by
    intro hc
    rcases hm with h | h <;> rw [h] at hc <;> exact absurd hc.1 (by decide)
  unfold convBody at hx
  rw [if_neg htool] at hx
  by_cases hstr : isStringContent m.content = true ∧ m.toolCalls = []
  · rw [if_pos hstr] at hx
    rcases List.mem_append.1 hx with h | h
    · exact hst x h
    · simp only [List.mem_singleton] at h
      subst h
      exact hm
  · rw [if_neg hstr] at hx
    rcases List.mem_append.1 hx with h | h
    · exact hst x h
    · simp only [List.mem_singleton] at h
      subst h
      exact hm

theorem convStep_roles (parse : ParseFn) (st : ConvState) (m : OpenAIMessage)
    (hst : ∀ x ∈ st.msgs, x.role = "user" ∨ x.role = "assistant")
    (hm : RoleOK m.role) :
    ∀ x ∈ (convStep parse st m).msgs, x.role = "user" ∨ x.role = "assistant" := by
  intro x hx
  unfold convStep at hx
  rcases hm with h | h | h
  · rw [if_pos h] at hx
    exact hst x hx
  · rw [if_neg (by rw [h]; decide)] at hx
    refine convBody_roles parse _ m ?_ (Or.inl h) x hx
    exact repairFirst_msgs_pred _ st m.role hst (Or.inl rfl)
  · rw [if_neg (by rw [h]; decide)] at hx
    refine convBody_roles parse _ m ?_ (Or.inr h) x hx
    exact repairFirst_msgs_pred _ st m.role hst (Or.inl rfl)

theorem convFold_roles (parse : ParseFn) :
    ∀ (msgs : List OpenAIMessage) (st : ConvState),
      (∀ x ∈ st.msgs, x.role = "user" ∨ x.role = "assistant") →
      (∀ m ∈ msgs, RoleOK m.role) →
      ∀ x ∈ (msgs.foldl (convStep parse) st).msgs, x.role = "user" ∨ x.role = "assistant"
  | [], st, hst, _ => by simpa using hst
  | m :: rest, st, hst, hmsgs => by
      rw [List.foldl_cons]
      exact convFold_roles parse rest (convStep parse st m)
        (convStep_roles parse st m hst (hmsgs m (List.mem_cons_self m rest)))
        (fun x hx => hmsgs x (List.mem_cons_of_mem _ hx))

theorem addCacheControlToMessage_role (m : AnthMessage) :
    (addCacheControlToMessage m).role = m.role := by
  unfold addCacheControlToMessage
  split
  · split <;> rfl
  · split <;> rfl
  · rfl

theorem annotateSecondLast_pred (P : String → Prop) :
    ∀ l : List AnthMessage, (∀ x ∈ l, P x.role) → ∀ x ∈ annotateSecondLast l, P x.role
  | [], h => by simp [annotateSecondLast]
  | [m], h => by
      intro x hx
      simp only [annotateSecondLast, List.mem_singleton] at hx
      subst hx
      exact h x (by simp)
  | [a, b], h => by
      intro x hx
      unfold annotateSecondLast at hx
      simp only [List.mem_cons, List.not_mem_nil, or_false] at hx
      rcases hx with hx | hx
      · rw [hx]
        by_cases ha : a.role = "assistant"
        · rw [if_pos ha, addCacheControlToMessage_role]
          exact h a (by simp)
        · rw [if_neg ha]
          exact h a (by simp)
      · rw [hx]
        exact h b (by simp)
  | a :: b :: c :: rest, h => by
      intro x hx
      unfold annotateSecondLast at hx
      rw [List.mem_cons] at hx
      rcases hx with hx | hx
      · rw [hx]
        exact h a (by simp)
      · exact annotateSecondLast_pred P (b :: c :: rest)
          (fun y hy => h y (List.mem_cons_of_mem _ hy)) x hx

/-- Claim C4 (amended): for every inbound request all of whose messages have
role "", "system", "user" or "assistant", every message in the outbound
message list has role "user" or role "assistant", and system messages are
extracted into the system-block list.  The tool-role clause of the original
claim is weakened: a tool-role inbound message is rewritten to a user-role
message (or merged into the preceding user message) only when it carries a
nonempty tool-call-correlation id; a tool-role message with an empty id is
passed through with role "tool" (see the counterexample). -/
theorem C4_outbound_roles (parse : ParseFn) (req : OpenAIRequest)
    (h : (req.messages.all fun m =>
        m.role == "" || m.role == "system" || m.role == "user" || m.role == "assistant") = true) :
    ((ConvertOpenAIToAnthropic parse req).messages.all fun m =>
        m.role == "user" || m.role == "assistant") = true := by
  rw [List.all_eq_true] at h ⊢
  intro m hm
  have hmm : m.role = "user" ∨ m.role = "assistant" := by
    have hfm : ∀ x ∈ formatMessages req.messages, RoleOK x.role := by
      apply formatMessages_roles
      intro x hx
      have := h x hx
      simp only [Bool.or_eq_true, beq_iff_eq] at this
      rcases this with ((h1 | h1) | h1) | h1
      · exact Or.inl h1
      · exact Or.inr (Or.inl h1)
      · exact Or.inr (Or.inr (Or.inl h1))
      · exact Or.inr (Or.inr (Or.inr h1))
    have hconv : ∀ x ∈ ((formatMessages req.messages).foldl (convStep parse) {}).msgs,
        x.role = "user" ∨ x.role = "assistant" :=
      convFold_roles parse (formatMessages req.messages) {} (by intro x hx; simp at hx) hfm
    have hmem : m ∈ annotateSecondLast ((formatMessages req.messages).foldl (convStep parse) {}).msgs := hm
    exact annotateSecondLast_pred (fun r => r = "user" ∨ r = "assistant") _ hconv m hmem
  simp only [Bool.or_eq_true, beq_iff_eq]
  exact hmm

/- The concrete request refuting the claim: a tool-role message with an
   empty tool-call-correlation id. -/
def reqC4 : OpenAIRequest := { messages := [{ role := "tool", content := .str "x" }] }

/-- Claim C4 counterexample: a tool-role inbound message whose tool-call
id is empty is not rewritten to a user-role message: the outbound message
list is [user-placeholder, tool], and "tool" is neither "user" nor
"assistant". -/
theorem C4_counterexample :
    (ConvertOpenAIToAnthropic miniParse reqC4).messages.map (fun m => m.role) = ["user", "tool"]
    ∧ ¬(("tool" : String) = "user" ∨ ("tool" : String) = "assistant") :=
  ⟨rfl, by decide⟩

/- The concrete request of the C4 witness: a system message followed by an
   assistant message (so the leading-role repair fires). -/
def reqW4 : OpenAIRequest :=
  { messages := [{ role := "system", content := .str "s" },
                 { role := "assistant", content := .str "a" }] }

/-- Claim C4 witness: for a request with a system and an assistant message,
every outbound message has role "user" or "assistant". -/
theorem C4_outbound_roles_witness :
    ((ConvertOpenAIToAnthropic miniParse reqW4).messages.all fun m =>
        m.role == "user" || m.role == "assistant") = true :=
  C4_outbound_roles miniParse reqW4 (by decide)

/- ===== Claim C7 ===== -/

def partClean (c : AnthContent) : Prop := c.cacheControl = none

/- A message is clean when its content-part list (if it has one) carries no
   cache annotation; plain-string and nil contents carry none by shape. -/
def msgClean (m : AnthMessage) : Prop :=
  ∀ cs, m.content = AnthMsgContent.parts cs → ∀ c ∈ cs, partClean c

theorem msgClean_parts (r : String) (cs : List AnthContent) (h : ∀ c ∈ cs, partClean c) :
    msgClean { role := r, content := .parts cs } := by
  intro cs' hcs'
  injection hcs' with h2
  rw [← h2]
  exact h

theorem msgClean_of_not_parts (m : AnthMessage)
    (h : ∀ cs, m.content ≠ AnthMsgContent.parts cs) : msgClean m := by
  intro cs hcs
  exact absurd hcs (h cs)

theorem itemToPart_clean (it : OAIItem) (c : AnthContent) (h : itemToPart it = some c) :
    partClean c := by
  cases it with
  | text t =>
      by_cases ht : t = ""
      · simp [itemToPart, ht] at h
      · simp [itemToPart, ht] at h
        rw [← h]
        rfl
  | imageURL u =>
      simp [itemToPart] at h
      rw [← h]
      rfl
  | other => simp [itemToPart] at h

theorem toolCallToPart_clean (parse : ParseFn) (tc : OAIToolCall) (c : AnthContent)
    (h : toolCallToPart parse tc = some c) : partClean c := by
  unfold toolCallToPart at h
  cases hp : parse tc.function.arguments with
  | none => rw [hp] at h; simp at h
  | some obj =>
      rw [hp] at h
      simp only [Option.some.injEq] at h
      rw [← h]
      rfl

theorem buildContents_clean (parse : ParseFn) (m : OpenAIMessage) :
    ∀ c ∈ buildContents parse m, partClean c := by
  intro c hc
  unfold buildContents at hc
  rcases List.mem_append.1 hc with h | h
  · cases hcon : m.content with
    | arr items =>
        rw [hcon] at h
        rcases List.mem_filterMap.1 h with ⟨it, _, hit⟩
        exact itemToPart_clean it c hit
    | null => rw [hcon] at h; simp at h
    | str s => rw [hcon] at h; simp at h
    | other => rw [hcon] at h; simp at h
  · rcases List.mem_filterMap.1 h with ⟨tc, _, htc⟩
    exact toolCallToPart_clean parse tc c htc

theorem systemBlocksOf_clean (content : OAIContentV) :
    ∀ b ∈ systemBlocksOf content, b.cacheControl = none := by
  intro b hb
  cases content with
  | str s =>
      simp only [systemBlocksOf, List.mem_singleton] at hb
      rw [hb]
  | arr items =>
      unfold systemBlocksOf at hb
      rcases List.mem_filterMap.1 hb with ⟨it, _, hit⟩
      cases it with
      | text t =>
          simp only [Option.some.injEq] at hit
          rw [← hit]
      | imageURL u => simp at hit
      | other => simp at hit
  | null => simp [systemBlocksOf] at hb
  | other => simp [systemBlocksOf] at hb

theorem toolResultPart_clean (m : OpenAIMessage) : partClean (toolResultPart m) := rfl

theorem promote_parts_clean (c0 : AnthMsgContent) (cs : List AnthContent)
    (h1 : ∀ cs', c0 = AnthMsgContent.parts cs' → ∀ c ∈ cs', partClean c)
    (h2 : promoteContent c0 = AnthMsgContent.parts cs) : ∀ c ∈ cs, partClean c := by
  cases c0 with
  | null => simp [promoteContent] at h2
  | str s =>
      unfold promoteContent at h2
      injection h2 with h3
      rw [← h3]
      intro c hc
      simp only [List.mem_singleton] at hc
      rw [hc]
      rfl
  | parts l =>
      unfold promoteContent at h2
      injection h2 with h3
      rw [← h3]
      exact h1 l rfl

theorem placeholder_clean : msgClean placeholderUserMessage := by
  apply msgClean_parts
  intro c hc
  simp only [List.mem_singleton] at hc
  rw [hc]
  rfl

theorem repairFirst_system (st : ConvState) (r : String) :
    (repairFirst st r).system = st.system := by
  unfold repairFirst
  repeat' split
  all_goals rfl

theorem convBody_system (parse : ParseFn) (st1 : ConvState) (m : OpenAIMessage) :
    (convBody parse st1 m).system = st1.system := by
  unfold convBody
  repeat' split
  all_goals rfl

theorem convBody_clean (parse : ParseFn) (st1 : ConvState) (m : OpenAIMessage)
    (hm : ∀ x ∈ st1.msgs, msgClean x) :
    ∀ x ∈ (convBody parse st1 m).msgs, msgClean x := by
  intro x hx
  unfold convBody at hx
  by_cases htool : m.role = "tool" ∧ m.toolCallID ≠ ""
  · rw [if_pos htool] at hx
    cases hsplit : splitLast st1.msgs with
    | none =>
        rw [hsplit] at hx
        rcases List.mem_append.1 hx with h | h
        · exact hm x h
        · simp only [List.mem_singleton] at h
          rw [h]
          apply msgClean_parts
          intro c hc
          simp only [List.mem_singleton] at hc
          rw [hc]
          rfl
    | some p =>
        obtain ⟨initMsgs, lastMsg⟩ := p
        rw [hsplit] at hx
        dsimp only at hx
        have hl := splitLast_eq st1.msgs initMsgs lastMsg hsplit
        have hlast : msgClean lastMsg := hm lastMsg (by rw [hl]; simp)
        have hinit : ∀ y ∈ initMsgs, msgClean y := by
          intro y hy
          exact hm y (by rw [hl]; exact List.mem_append.2 (Or.inl hy))
        by_cases hu : lastMsg.role = "user"
        · rw [if_pos hu] at hx
          cases hpc : promoteContent lastMsg.content with
          | parts cs =>
              rw [hpc] at hx
              rcases List.mem_append.1 hx with h | h
              · exact hinit x h
              · simp only [List.mem_singleton] at h
                rw [h]
                apply msgClean_parts
                intro c hc
                rcases List.mem_append.1 hc with h2 | h2
                · exact promote_parts_clean lastMsg.content cs hlast hpc c h2
                · simp only [List.mem_singleton] at h2
                  rw [h2]
                  rfl
          | null =>
              rw [hpc] at hx
              rcases List.mem_append.1 hx with h | h
              · exact hm x h
              · simp only [List.mem_singleton] at h
                rw [h]
                apply msgClean_of_not_parts
                intro cs
                simp
          | str s =>
              rw [hpc] at hx
              rcases List.mem_append.1 hx with h | h
              · exact hm x h
              · simp only [List.mem_singleton] at h
                rw [h]
                apply msgClean_of_not_parts
                intro cs
                simp
        · rw [if_neg hu] at hx
          rcases List.mem_append.1 hx with h | h
          · exact hm x h
          · simp only [List.mem_singleton] at h
            rw [h]
            apply msgClean_parts
            intro c hc
            simp only [List.mem_singleton] at hc
            rw [hc]
            rfl
  · rw [if_neg htool] at hx
    by_cases hstr : isStringContent m.content = true ∧ m.toolCalls = []
    · rw [if_pos hstr] at hx
      rcases List.mem_append.1 hx with h | h
      · exact hm x h
      · simp only [List.mem_singleton] at h
        rw [h]
        apply msgClean_of_not_parts
        intro cs
        simp
    · rw [if_neg hstr] at hx
      rcases List.mem_append.1 hx with h | h
      · exact hm x h
      · simp only [List.mem_singleton] at h
        rw [h]
        unfold complexContent
        by_cases he : (buildContents parse m).isEmpty = true
        · rw [if_pos he]
          apply msgClean_of_not_parts
          intro cs
          simp
        · rw [if_neg he]
          apply msgClean_parts
          exact buildContents_clean parse m

theorem convStep_clean (parse : ParseFn) (st : ConvState) (m : OpenAIMessage)
    (hm : ∀ x ∈ st.msgs, msgClean x) (hs : ∀ b ∈ st.system, b.cacheControl = none) :
    (∀ x ∈ (convStep parse st m).msgs, msgClean x)
    ∧ (∀ b ∈ (convStep parse st m).system, b.cacheControl = none) := by
  unfold convStep
  by_cases hsys : m.role = "system"
  · rw [if_pos hsys]
    constructor
    · intro x hx
      exact hm x hx
    · intro b hb
      rcases List.mem_append.1 hb with h | h
      · exact hs b h
      · exact systemBlocksOf_clean m.content b h
  · rw [if_neg hsys]
    constructor
    · exact convBody_clean parse _ m
        (repairFirst_msgs_pred msgClean st m.role hm placeholder_clean)
    · intro b hb
      rw [convBody_system, repairFirst_system] at hb
      exact hs b hb

theorem convFold_clean (parse : ParseFn) :
    ∀ (msgs : List OpenAIMessage) (st : ConvState),
      (∀ x ∈ st.msgs, msgClean x) → (∀ b ∈ st.system, b.cacheControl = none) →
      (∀ x ∈ (msgs.foldl (convStep parse) st).msgs, msgClean x)
      ∧ (∀ b ∈ (msgs.foldl (convStep parse) st).system, b.cacheControl = none)
  | [], st, hm, hs => by
      constructor
      · simpa using hm
      · simpa using hs
  | m :: rest, st, hm, hs => by
      rw [List.foldl_cons]
      have hstep := convStep_clean parse st m hm hs
      exact convFold_clean parse rest (convStep parse st m) hstep.1 hstep.2

theorem annotateLastBlock_length :
    ∀ l : List AnthSystemBlock, (annotateLastBlock l).length = l.length
  | [] => rfl
  | [b] => rfl
  | b :: c :: rest => by
      show (b :: annotateLastBlock (c :: rest)).length = (b :: c :: rest).length
      simp [annotateLastBlock_length (c :: rest)]

theorem annotateLastBlock_spec :
    ∀ l : List AnthSystemBlock, (∀ b ∈ l, b.cacheControl = none) →
      ((annotateLastBlock l).filter fun b => b.cacheControl.isSome).length ≤ 1
      ∧ ∀ b ∈ (annotateLastBlock l).dropLast, b.cacheControl = none
  | [], _ => by
      constructor
      · simp [annotateLastBlock]
      · simp [annotateLastBlock]
  | [b], h => by
      constructor
      · simp [annotateLastBlock]
      · simp [annotateLastBlock]
  | b :: c :: rest, h => by
      have ih := annotateLastBlock_spec (c :: rest) (fun y hy => h y (List.mem_cons_of_mem _ hy))
      have hb : b.cacheControl = none := h b (by simp)
      constructor
      · show ((b :: annotateLastBlock (c :: rest)).filter fun x => x.cacheControl.isSome).length ≤ 1
        rw [List.filter_cons, hb]
        simpa using ih.1
      · show ∀ x ∈ (b :: annotateLastBlock (c :: rest)).dropLast, x.cacheControl = none
        obtain ⟨e, l2, hE⟩ : ∃ e l2, annotateLastBlock (c :: rest) = e :: l2 := by
          cases rest with
          | nil => exact ⟨_, _, rfl⟩
          | cons d rest2 => exact ⟨_, _, rfl⟩
        intro x hx
        rw [hE] at hx
        have hdl : (b :: e :: l2).dropLast = b :: (e :: l2).dropLast := rfl
        rw [hdl] at hx
        rcases List.mem_cons.1 hx with h1 | h1
        · rw [h1]
          exact hb
        · have := ih.2 x (by rw [hE]; exact h1)
          exact this

theorem annotateLastPart_count :
    ∀ cs : List AnthContent, (∀ c ∈ cs, partClean c) →
      ((annotateLastPart cs).filter fun c => c.cacheControl.isSome).length ≤ 1
  | [], _ => by simp [annotateLastPart]
  | [c], h => by simp [annotateLastPart]
  | c :: d :: rest, h => by
      have ih := annotateLastPart_count (d :: rest) (fun y hy => h y (List.mem_cons_of_mem _ hy))
      have hc : c.cacheControl = none := h c (by simp)
      show ((c :: annotateLastPart (d :: rest)).filter fun x => x.cacheControl.isSome).length ≤ 1
      rw [List.filter_cons, hc]
      simpa using ih

theorem msgClean_msgCC (m : AnthMessage) (h : msgClean m) : msgCC m = 0 := by
  unfold msgCC
  cases hc : m.content with
  | null => rfl
  | str s => rfl
  | parts cs =>
      have hcs := h cs hc
      show (cs.filter fun c => c.cacheControl.isSome).length = 0
      have hnil : (cs.filter fun c => c.cacheControl.isSome) = [] := by
        rw [List.filter_eq_nil_iff]
        intro c hc2
        rw [hcs c hc2]
        simp
      rw [hnil]
      rfl

theorem addCacheControlToMessage_cc (m : AnthMessage) (h : msgClean m) :
    msgCC (addCacheControlToMessage m) ≤ 1 := by
  unfold addCacheControlToMessage
  cases hc : m.content with
  | null =>
      show msgCC m ≤ 1
      rw [msgClean_msgCC m h]
      decide
  | str s =>
      dsimp only
      by_cases hs : s = ""
      · rw [if_pos hs]
        rw [msgClean_msgCC m h]
        decide
      · rw [if_neg hs]
        simp [msgCC]
  | parts cs =>
      dsimp only
      by_cases he : cs.isEmpty = true
      · rw [if_pos he]
        rw [msgClean_msgCC m h]
        decide
      · rw [if_neg he]
        have := annotateLastPart_count cs (h cs hc)
        simpa [msgCC] using this

theorem annotateSecondLast_cc :
    ∀ l : List AnthMessage, (∀ m ∈ l, msgClean m) → ∀ m ∈ annotateSecondLast l, msgCC m ≤ 1
  | [], h => by simp [annotateSecondLast]
  | [m0], h => by
      intro x hx
      simp only [annotateSecondLast, List.mem_singleton] at hx
      rw [hx, msgClean_msgCC m0 (h m0 (by simp))]
      decide
  | [a, b], h => by
      intro x hx
      unfold annotateSecondLast at hx
      simp only [List.mem_cons, List.not_mem_nil, or_false] at hx
      rcases hx with hx | hx
      · rw [hx]
        by_cases ha : a.role = "assistant"
        · rw [if_pos ha]
          exact addCacheControlToMessage_cc a (h a (by simp))
        · rw [if_neg ha]
          rw [msgClean_msgCC a (h a (by simp))]
          decide
      · rw [hx, msgClean_msgCC b (h b (by simp))]
        decide
  | a :: b :: c :: rest, h => by
      intro x hx
      unfold annotateSecondLast at hx
      rw [List.mem_cons] at hx
      rcases hx with hx | hx
      · rw [hx, msgClean_msgCC a (h a (by simp))]
        decide
      · exact annotateSecondLast_cc (b :: c :: rest)
          (fun y hy => h y (List.mem_cons_of_mem _ hy)) x hx

/-- Claim C7: for every inbound request, the outbound request carries at
most one cache annotation across the system-block list (and only the last
system block may carry one), and at most one cache annotation within any
single message's content-part list. -/
theorem C7_cache_placement (parse : ParseFn) (req : OpenAIRequest) :
    (((ConvertOpenAIToAnthropic parse req).system.filter fun b => b.cacheControl.isSome).length ≤ 1)
    ∧ ((((ConvertOpenAIToAnthropic parse req).system.dropLast).all fun b => b.cacheControl.isNone) = true)
    ∧ (((ConvertOpenAIToAnthropic parse req).messages.all fun m => decide (msgCC m ≤ 1)) = true) := by
  have hfold := convFold_clean parse (formatMessages req.messages) {}
    (by intro x hx; simp at hx) (by intro b hb; simp at hb)
  have hsys := annotateLastBlock_spec _ hfold.2
  refine ⟨hsys.1, ?_, ?_⟩
  · rw [List.all_eq_true]
    intro b hb
    have := hsys.2 b hb
    simp [this]
  · rw [List.all_eq_true]
    intro m hm
    have := annotateSecondLast_cc _ hfold.1 m hm
    simpa using this
